import Mathlib

/-!
Shallow embedding of `packages/playwright-ct-core/src/mount.ts` (playwright
component testing: the mount fixture, its function marshaller, the remote
bridge and the descriptor builder), together with proofs about the embedded
definitions.

Modelling conventions:
* JavaScript runtime values are the inductive `JSVal`.  String values are
  `List Char` (JS strings are sequences of code units, read and split by code
  unit index, so a list models `startsWith`/`substring` directly); numbers are
  restricted to integers, which is exact for every value the claims touch;
  objects are the ordered key/value entry lists that `Object.entries`
  iterates.
* Function values cannot be inspected, only stored and invoked, so they are
  identified by `Fn`: an abstract id for a test-side callback, or the
  remote-side dispatcher closure created by `unwrapFunctions`.
* Mutation (`object[key] = ...`, `callbacks.push(...)`) is modelled by
  returning the updated value / registry.
* `window.__pwRegistry.resolveImports` and the framework stubs
  (`playwrightMount` / `playwrightUpdate`) are external collaborators: the
  former is an arbitrary function parameter `resolve`, the latter are recorded
  as `RemoteCall` events rather than interpreted.
-/

/-- Identity of a JavaScript function value.  `callback id` is an arbitrary
test-process function (opaque; only its identity matters).  `dispatcher ordinal`
is the remote-context closure `(...args) => window.__ct_dispatch(ordinal, args)`
that `unwrapFunctions` substitutes for a token string; `none` stands for an
ordinal that is not a valid array index (the `NaN` produced by coercing a
non-numeric token suffix). -/
inductive Fn where
  | callback (id : Nat)
  | dispatcher (ordinal : Option Nat)
deriving DecidableEq

/-- JavaScript values, as far as `mount.ts` inspects them: `typeof` distinguishes
functions, strings and (non-null) objects; everything else passes through
untouched, so one constructor per relevant `typeof` class suffices. -/
inductive JSVal where
  | undefined
  | null
  | bool (b : Bool)
  | num (n : Int)
  | str (s : List Char)
  | func (f : Fn)
  | obj (entries : List (String × JSVal))

/-- The literal `'__pw_func_'` used to build and recognise function tokens. -/
def pwFuncMark : List Char := "__pw_func_".toList

/-- Decimal digits of `n`, most significant first, accumulator style with
explicit fuel (mirrors how `String(number)` renders a non-negative integer;
the fuel is always sufficient at `n + 1`). -/
def decCharsAux : Nat → Nat → List Char → List Char
  | 0, _, acc => acc
  | fuel + 1, n, acc =>
      if n < 10 then Nat.digitChar n :: acc
      else decCharsAux fuel (n / 10) (Nat.digitChar (n % 10) :: acc)

/-- The decimal rendering of `n`, as JavaScript string-concatenation renders the
number `callbacks.length`. -/
def decChars (n : Nat) : List Char := decCharsAux (n + 1) n []

/-- The token string `'__pw_func_' + n` allocated for the `n`-th registry slot. -/
def tokenOf (n : Nat) : List Char := pwFuncMark ++ decChars n

/-- `wrapFunctions` (mount.ts lines 156-167), entry-list level.  Walks
`Object.entries(object)` in order; a function value is replaced by the token
for the current registry length and pushed onto the registry; a non-null object
value is recursed into; every other value is left as is.  Returns the rewritten
entries and the extended registry. -/
def wrapEntries : List (String × JSVal) → List Fn → List (String × JSVal) × List Fn
  | [], callbacks => ([], callbacks)
  | (key, JSVal.func f) :: rest, callbacks =>
      let functionName := tokenOf callbacks.length
      let r := wrapEntries rest (callbacks ++ [f])
      ((key, JSVal.str functionName) :: r.1, r.2)
  | (key, JSVal.obj es) :: rest, callbacks =>
      let r1 := wrapEntries es callbacks
      let r2 := wrapEntries rest r1.2
      ((key, JSVal.obj r1.1) :: r2.1, r2.2)
  | (key, v) :: rest, callbacks =>
      let r := wrapEntries rest callbacks
      ((key, v) :: r.1, r.2)

/-- `wrapFunctions(object, page, callbacks)` at value level (the `page`
argument is unused by the source body and omitted).  The source only ever
passes objects; a non-object argument has no entries to iterate. -/
def wrapFunctions (object : JSVal) (callbacks : List Fn) : JSVal × List Fn :=
  match object with
  | JSVal.obj es =>
      let r := wrapEntries es callbacks
      (JSVal.obj r.1, r.2)
  | v => (v, callbacks)

/-- Numeric value of a digit string read by `fold`, most significant first. -/
def digitsToNat (cs : List Char) : Nat :=
  cs.foldl (fun a c => 10 * a + (c.toNat - 48)) 0

/-- The JavaScript coercion `+s` applied to a token suffix, restricted to the
outcomes that can index the callback array: `+'' === 0`, a pure decimal string
yields its value, and anything else (producing `NaN`, a negative or fractional
number, or an exotic literal) is `none`, which never looks up a registry
entry. -/
def jsToIndex (cs : List Char) : Option Nat :=
  if cs.all Char.isDigit then some (digitsToNat cs) else none

/-- The remote-side `unwrapFunctions` (mount.ts lines 90-101 and 118-129,
identical bodies), entry-list level.  A string value that starts with
`'__pw_func_'` is replaced by the dispatcher closure over the ordinal
`+value.substring('__pw_func_'.length)`; a non-null object value is recursed
into; every other value is left as is. -/
def unwrapEntries : List (String × JSVal) → List (String × JSVal)
  | [] => []
  | (key, JSVal.str s) :: rest =>
      (if pwFuncMark.isPrefixOf s then
        (key, JSVal.func (Fn.dispatcher (jsToIndex (s.drop pwFuncMark.length))))
      else
        (key, JSVal.str s)) :: unwrapEntries rest
  | (key, JSVal.obj es) :: rest =>
      (key, JSVal.obj (unwrapEntries es)) :: unwrapEntries rest
  | (key, v) :: rest => (key, v) :: unwrapEntries rest

/-- Remote-side `unwrapFunctions` at value level. -/
def unwrapFunctions (object : JSVal) : JSVal :=
  match object with
  | JSVal.obj es => JSVal.obj (unwrapEntries es)
  | v => v

/-- One message sent over the page binding `__ct_dispatch`. -/
structure DispatchMsg where
  ordinal : Option Nat
  args : List JSVal

/-- Invoking the dispatcher closure `(...args) => { __ct_dispatch(ordinal, args) }`:
one message is emitted and the call returns `undefined` immediately (fire and
forget; the closure body has no `return` and does not await). -/
def invokeDispatcher (ordinal : Option Nat) (args : List JSVal) :
    List DispatchMsg × JSVal :=
  ([⟨ordinal, args⟩], JSVal.undefined)

/-- One invocation of a registered callback: which function was called and with
which argument list. -/
structure CallEvent where
  callee : Fn
  args : List JSVal

/-- Error text standing for the `TypeError` raised by calling `undefined`. -/
def typeErrorNotFunction : String :=
  "TypeError: boundCallbacksForMount[ordinal] is not a function"

/-- The exposed binding `__ct_dispatch` (mount.ts lines 49-51):
`boundCallbacksForMount[ordinal](...args)`.  An in-range ordinal calls the
stored function once, spreading `args`; an out-of-range ordinal (or an ordinal
that is not a valid index) reads `undefined` and the call expression throws. -/
def ctDispatch (registry : List Fn) (ordinal : Option Nat) (args : List JSVal) :
    Except String (List CallEvent) :=
  match ordinal.bind (fun i => registry.get? i) with
  | some f => Except.ok [⟨f, args⟩]
  | none => Except.error typeErrorNotFunction

/-- First binding of `key` in an entry list (JS property lookup; `none` is
`undefined`). -/
def getKey : List (String × JSVal) → String → Option JSVal
  | [], _ => none
  | (k, v) :: rest, key => if k = key then some v else getKey rest key

/-- JS property assignment on an entry list: overwrite the first binding of
`key` in place, or append a fresh binding.  Object-literal spread
`{ ...base, ...options }` performs this per option entry in order. -/
def setKey : List (String × JSVal) → String → JSVal → List (String × JSVal)
  | [], key, v => [(key, v)]
  | (k, w) :: rest, key, v =>
      if k = key then (key, v) :: rest else (k, w) :: setKey rest key v

/-- Spread `options` onto `base`, later entries overriding earlier bindings. -/
def spreadOnto (base options : List (String × JSVal)) : List (String × JSVal) :=
  options.foldl (fun acc kv => setKey acc kv.1 kv.2) base

/-- The property read `component.__pw_type` (`none` is `undefined`). -/
def pwTypeOf : JSVal → Option JSVal
  | JSVal.obj es => getKey es "__pw_type"
  | _ => none

/-- The test `component.__pw_type === 'jsx'` inside `createComponent`. -/
def isJsxRef (component : JSVal) : Bool :=
  match pwTypeOf component with
  | some (JSVal.str s) => s == "jsx".toList
  | _ => false

/-- `isJsxComponent` (mount.ts lines 81-83):
`typeof component === 'object' && component && component.__pw_type === 'jsx'`. -/
def isJsxComponent (component : JSVal) : Bool :=
  match component with
  | JSVal.obj es =>
      match getKey es "__pw_type" with
      | some (JSVal.str s) => s == "jsx".toList
      | _ => false
  | _ => false

/-- `createComponent` (mount.ts lines 146-154).  A `'jsx'`-tagged reference is
returned unchanged; otherwise the literal
`{ __pw_type: 'object-component', type: component, ...options }` is built. -/
def createComponent (component : JSVal) (options : List (String × JSVal)) : JSVal :=
  if isJsxRef component then component
  else
    JSVal.obj (spreadOnto
      [("__pw_type", JSVal.str "object-component".toList), ("type", component)]
      options)

/-- Entries of an object value (a non-object has none). -/
def entriesOf : JSVal → List (String × JSVal)
  | JSVal.obj es => es
  | _ => []

/-- A framework entry-point invocation performed inside the remote context.
`root` is the index in the document of the element passed as root node. -/
inductive RemoteCall where
  | mountCall (root : Option Nat) (component : JSVal) (hooksConfig : Option JSVal)
  | updateCall (root : Option Nat) (component : JSVal)

/-- The remote context, as far as mount.ts touches it: the ids of the elements
attached to the document in order (`appendChild` appends), and the log of
framework entry-point invocations. -/
structure RemoteState where
  doc : List String
  calls : List RemoteCall

/-- `document.getElementById(i)`: index of the first element with id `i`. -/
def getElementById (doc : List String) (i : String) : Option Nat :=
  doc.findIdx? (fun e => e == i)

/-- Remote half of `innerMount` (mount.ts lines 117-142): unwrap the tokens,
create a `div#root` only if no element with id `root` exists, resolve imports
through the external registry, call `playwrightMount`, and return the
selector. -/
def innerMountRemote (resolve : JSVal → JSVal) (st : RemoteState)
    (component : JSVal) (hooksConfig : Option JSVal) : RemoteState × String :=
  let c1 := unwrapFunctions component
  let doc1 := if getElementById st.doc "root" = none then st.doc ++ ["root"] else st.doc
  let c2 := resolve c1
  ({ doc := doc1,
     calls := st.calls ++ [RemoteCall.mountCall (getElementById doc1 "root") c2 hooksConfig] },
   "#root >> internal:control=component")

/-- Remote half of `innerUpdate` (mount.ts lines 89-107): unwrap the tokens,
resolve imports, locate the existing `#root` element (no creation path) and
call `playwrightUpdate` against it.  The document is not modified. -/
def innerUpdateRemote (resolve : JSVal → JSVal) (st : RemoteState)
    (component : JSVal) : RemoteState :=
  let c1 := unwrapFunctions component
  let c2 := resolve c1
  { doc := st.doc,
    calls := st.calls ++ [RemoteCall.updateCall (getElementById st.doc "root") c2] }

/-- Controller half of `innerUpdate` (mount.ts lines 85-108): build the
descriptor, marshal its functions into the shared registry, then run the remote
half on the wrapped descriptor. -/
def innerUpdate (resolve : JSVal → JSVal) (registry : List Fn) (st : RemoteState)
    (componentRef : JSVal) (options : List (String × JSVal)) :
    List Fn × RemoteState :=
  let component := createComponent componentRef options
  let w := wrapFunctions component registry
  (w.2, innerUpdateRemote resolve st w.1)

/-- Controller half of `innerMount` (mount.ts lines 110-144): build, marshal,
then run the remote half, transferring `options.hooksConfig` alongside. -/
def innerMount (resolve : JSVal → JSVal) (registry : List Fn) (st : RemoteState)
    (componentRef : JSVal) (options : List (String × JSVal)) :
    List Fn × RemoteState × String :=
  let component := createComponent componentRef options
  let w := wrapFunctions component registry
  let r := innerMountRemote resolve st w.1 (getKey options "hooksConfig")
  (w.2, r)

/-- The handle's `update` (mount.ts lines 70-74): a `'jsx'`-tagged argument is
a full new descriptor and is mounted in place of the original reference (the
options parameter of `innerUpdate` defaults to `{}`); anything else is an
options patch applied to the `componentRef` captured at mount time. -/
def handleUpdate (resolve : JSVal → JSVal) (registry : List Fn) (st : RemoteState)
    (componentRef : JSVal) (arg : JSVal) : List Fn × RemoteState :=
  if isJsxComponent arg then innerUpdate resolve registry st arg []
  else innerUpdate resolve registry st componentRef (entriesOf arg)

/-- A sequence of `update` calls on the same handle, threading registry and
remote state. -/
def runUpdates (resolve : JSVal → JSVal) (componentRef : JSVal) :
    List JSVal → List Fn × RemoteState → List Fn × RemoteState
  | [], s => s
  | arg :: rest, s =>
      runUpdates resolve componentRef rest (handleUpdate resolve s.1 s.2 componentRef arg)

/-- The registry growth of one `innerMount`/`innerUpdate` call: what
`boundCallbacksForMount` becomes after marshalling one descriptor. -/
def marshalCall (registry : List Fn) (componentRef : JSVal)
    (options : List (String × JSVal)) : List Fn :=
  (wrapFunctions (createComponent componentRef options) registry).2

/-- Lifecycle events acting on the module-level `boundCallbacksForMount`:
a marshalling call (inside mount or update), or the mount fixture teardown
`boundCallbacksForMount = []` (mount.ts line 77) that ends a session. -/
inductive FixtureEvent where
  | marshal (componentRef : JSVal) (options : List (String × JSVal))
  | teardown

/-- The module-level registry after a sequence of lifecycle events. -/
def runFixture : List FixtureEvent → List Fn → List Fn
  | [], r => r
  | FixtureEvent.marshal c o :: evs, r => runFixture evs (marshalCall r c o)
  | FixtureEvent.teardown :: evs, _ => runFixture evs []

/-- The initial value of `boundCallbacksForMount` (mount.ts line 21). -/
def initialCallbacks : List Fn := []

/-! Specification-side functions: explicit descriptions of what the marshaller
computes, stated independently so the theorems relate the embedded code to
them. -/

/-- Number of function values reachable in an entry list by the walk
`wrapFunctions` performs (through non-null objects, in entry order). -/
def countFuncsEntries : List (String × JSVal) → Nat
  | [] => 0
  | (_, JSVal.func _) :: rest => 1 + countFuncsEntries rest
  | (_, JSVal.obj es) :: rest => countFuncsEntries es + countFuncsEntries rest
  | _ :: rest => countFuncsEntries rest

/-- The function values reachable in an entry list, in the order the walk
meets them (the order they are appended to the registry). -/
def collectFuncsEntries : List (String × JSVal) → List Fn
  | [] => []
  | (_, JSVal.func f) :: rest => f :: collectFuncsEntries rest
  | (_, JSVal.obj es) :: rest => collectFuncsEntries es ++ collectFuncsEntries rest
  | _ :: rest => collectFuncsEntries rest

/-- The function values a whole marshalled value contributes (only objects are
walked). -/
def collectFuncsVal : JSVal → List Fn
  | JSVal.obj es => collectFuncsEntries es
  | _ => []

/-- Expected output of the marshaller on an entry list when the registry
already holds `n` callbacks: the `i`-th reachable function value (in walk
order) becomes the token for ordinal `n + i` and nothing else changes. -/
def replaceFuncsEntries : List (String × JSVal) → Nat → List (String × JSVal)
  | [], _ => []
  | (key, JSVal.func _) :: rest, n =>
      (key, JSVal.str (tokenOf n)) :: replaceFuncsEntries rest (n + 1)
  | (key, JSVal.obj es) :: rest, n =>
      (key, JSVal.obj (replaceFuncsEntries es n)) ::
        replaceFuncsEntries rest (n + countFuncsEntries es)
  | (key, v) :: rest, n => (key, v) :: replaceFuncsEntries rest n

/-- The key skeleton of a value: every object layer with its keys in order,
all leaves collapsed.  Two values with the same skeleton have exactly the same
keys at every nesting depth. -/
inductive KeyTree where
  | leaf
  | node (children : List (String × KeyTree))

/-- Key skeleton of an entry list. -/
def keyShapeEntries : List (String × JSVal) → List (String × KeyTree)
  | [] => []
  | (key, JSVal.obj es) :: rest => (key, KeyTree.node (keyShapeEntries es)) :: keyShapeEntries rest
  | (key, _) :: rest => (key, KeyTree.leaf) :: keyShapeEntries rest

/-- No string value anywhere in the entry list starts with `'__pw_func_'`
(and so nothing in it is touched by `unwrapFunctions`). -/
def tokenFreeEntries : List (String × JSVal) → Bool
  | [] => true
  | (_, JSVal.str s) :: rest => !pwFuncMark.isPrefixOf s && tokenFreeEntries rest
  | (_, JSVal.obj es) :: rest => tokenFreeEntries es && tokenFreeEntries rest
  | _ :: rest => tokenFreeEntries rest

/-- Number of bindings of `key` in an entry list. -/
def countKey (es : List (String × JSVal)) (key : String) : Nat :=
  es.countP (fun e => e.1 == key)

/-! Decimal rendering lemmas: `decChars` is injective and parses back through
`jsToIndex`. -/

theorem decCharsAux_acc (fuel : Nat) :
    ∀ n acc, decCharsAux fuel n acc = decCharsAux fuel n [] ++ acc := by
  induction fuel with
  | zero => intro n acc; simp [decCharsAux]
  | succ fuel ih =>
      intro n acc
      by_cases h : n < 10
      · simp [decCharsAux, h]
      · simp only [decCharsAux, h, if_false]
        rw [ih (n / 10) (Nat.digitChar (n % 10) :: acc),
          ih (n / 10) [Nat.digitChar (n % 10)]]
        simp

theorem decCharsAux_fuel :
    ∀ n f1 f2 acc, n < f1 → n < f2 → decCharsAux f1 n acc = decCharsAux f2 n acc := by
  intro n
  induction n using Nat.strong_induction_on with
  | _ n ih =>
      intro f1 f2 acc h1 h2
      cases f1 with
      | zero => omega
      | succ a =>
          cases f2 with
          | zero => omega
          | succ b =>
              by_cases h : n < 10
              · simp [decCharsAux, h]
              · simp only [decCharsAux, h, if_false]
                exact ih (n / 10) (by omega) a b _ (by omega) (by omega)

theorem decChars_cons (n : Nat) (h : ¬ n < 10) :
    decChars n = decChars (n / 10) ++ [Nat.digitChar (n % 10)] := by
  show decCharsAux (n + 1) n [] = decCharsAux (n / 10 + 1) (n / 10) [] ++ _
  simp only [decCharsAux, h, if_false]
  rw [decCharsAux_acc]
  rw [decCharsAux_fuel (n / 10) n (n / 10 + 1) [] (by omega) (by omega)]
  congr 1

theorem digitsToNat_append (cs : List Char) (c : Char) :
    digitsToNat (cs ++ [c]) = 10 * digitsToNat cs + (c.toNat - 48) := by
  simp [digitsToNat, List.foldl_append]

theorem digitChar_toNat : ∀ d, d < 10 → (Nat.digitChar d).toNat - 48 = d := by decide

theorem digitChar_isDigit : ∀ d, d < 10 → (Nat.digitChar d).isDigit = true := by decide

theorem digitsToNat_decChars (n : Nat) : digitsToNat (decChars n) = n := by
  induction n using Nat.strong_induction_on with
  | _ n ih =>
      by_cases h : n < 10
      · simp [decChars, decCharsAux, h, digitsToNat, digitChar_toNat n h]
      · rw [decChars_cons n h, digitsToNat_append, ih (n / 10) (by omega),
          digitChar_toNat (n % 10) (by omega)]
        omega

theorem decChars_all_digits (n : Nat) : (decChars n).all Char.isDigit = true := by
  induction n using Nat.strong_induction_on with
  | _ n ih =>
      by_cases h : n < 10
      · simp [decChars, decCharsAux, h, digitChar_isDigit n h]
      · rw [decChars_cons n h]
        simp only [List.all_append, Bool.and_eq_true]
        exact ⟨ih (n / 10) (by omega), by simp [digitChar_isDigit (n % 10) (by omega)]⟩

theorem jsToIndex_decChars (n : Nat) : jsToIndex (decChars n) = some n := by
  simp [jsToIndex, decChars_all_digits n, digitsToNat_decChars n]

theorem decChars_injective : Function.Injective decChars := by
  intro m n h
  have hm := digitsToNat_decChars m
  rw [h, digitsToNat_decChars n] at hm
  omega

theorem tokenOf_injective : Function.Injective tokenOf := by
  intro m n h
  exact decChars_injective (List.append_cancel_left h)

theorem tokenOf_isPrefix (n : Nat) : pwFuncMark.isPrefixOf (tokenOf n) = true := by
  rw [List.isPrefixOf_iff_prefix]
  exact List.prefix_append _ _

theorem tokenOf_drop (n : Nat) : (tokenOf n).drop pwFuncMark.length = decChars n :=
  List.drop_left _ _

theorem jsToIndex_tokenOf (n : Nat) :
    jsToIndex ((tokenOf n).drop pwFuncMark.length) = some n := by
  rw [tokenOf_drop]
  exact jsToIndex_decChars n

/-! Marshaller lemmas: `wrapEntries` computes exactly the specification-side
description. -/

theorem collectFuncsEntries_length (es : List (String × JSVal)) :
    (collectFuncsEntries es).length = countFuncsEntries es := by
  induction es using collectFuncsEntries.induct with
  | case1 => simp [collectFuncsEntries, countFuncsEntries]
  | case2 key f rest ih =>
      simp [collectFuncsEntries, countFuncsEntries, ih]
      omega
  | case3 key es' rest ih1 ih2 =>
      simp [collectFuncsEntries, countFuncsEntries, ih1, ih2]
  | case4 kv rest hf ho ih =>
      obtain ⟨k, v⟩ := kv
      cases v <;> simp_all [collectFuncsEntries, countFuncsEntries]

theorem wrapEntries_spec (es : List (String × JSVal)) :
    ∀ cbs : List Fn,
      wrapEntries es cbs = (replaceFuncsEntries es cbs.length, cbs ++ collectFuncsEntries es) := by
  induction es using collectFuncsEntries.induct with
  | case1 =>
      intro cbs
      simp [wrapEntries, replaceFuncsEntries, collectFuncsEntries]
  | case2 key f rest ih =>
      intro cbs
      simp [wrapEntries, replaceFuncsEntries, collectFuncsEntries, ih]
  | case3 key es' rest ih1 ih2 =>
      intro cbs
      simp [wrapEntries, replaceFuncsEntries, collectFuncsEntries, ih1, ih2,
        collectFuncsEntries_length]
  | case4 kv rest hf ho ih =>
      obtain ⟨k, v⟩ := kv
      cases v <;> simp_all [wrapEntries, replaceFuncsEntries, collectFuncsEntries]

theorem wrapFunctions_registry (v : JSVal) (cbs : List Fn) :
    (wrapFunctions v cbs).2 = cbs ++ collectFuncsVal v := by
  cases v <;> simp [wrapFunctions, collectFuncsVal, wrapEntries_spec]

theorem keyShape_replaceFuncsEntries (es : List (String × JSVal)) :
    ∀ n, keyShapeEntries (replaceFuncsEntries es n) = keyShapeEntries es := by
  induction es using collectFuncsEntries.induct with
  | case1 => intro n; simp [replaceFuncsEntries]
  | case2 key f rest ih =>
      intro n
      simp [replaceFuncsEntries, keyShapeEntries, ih]
  | case3 key es' rest ih1 ih2 =>
      intro n
      simp [replaceFuncsEntries, keyShapeEntries, ih1, ih2]
  | case4 kv rest hf ho ih =>
      obtain ⟨k, v⟩ := kv
      cases v <;> simp_all [replaceFuncsEntries, keyShapeEntries]

theorem replaceFuncsEntries_of_no_funcs (es : List (String × JSVal)) :
    ∀ n, countFuncsEntries es = 0 → replaceFuncsEntries es n = es := by
  induction es using collectFuncsEntries.induct with
  | case1 => intro n _; simp [replaceFuncsEntries]
  | case2 key f rest ih =>
      intro n h
      simp [countFuncsEntries] at h
  | case3 key es' rest ih1 ih2 =>
      intro n h
      simp only [countFuncsEntries, Nat.add_eq_zero] at h
      simp [replaceFuncsEntries, ih1 n h.1, ih2 n h.2, h.1]
  | case4 kv rest hf ho ih =>
      obtain ⟨k, v⟩ := kv
      cases v <;> simp_all [replaceFuncsEntries, countFuncsEntries]

theorem unwrapEntries_of_tokenFree (es : List (String × JSVal)) :
    tokenFreeEntries es = true → unwrapEntries es = es := by
  induction es using tokenFreeEntries.induct with
  | case1 => intro _; simp [unwrapEntries]
  | case2 key s rest ih =>
      intro h
      simp only [tokenFreeEntries, Bool.and_eq_true, Bool.not_eq_true'] at h
      simp [unwrapEntries, h.1, ih h.2]
  | case3 key es' rest ih1 ih2 =>
      intro h
      simp only [tokenFreeEntries, Bool.and_eq_true] at h
      simp [unwrapEntries, ih1 h.1, ih2 h.2]
  | case4 kv rest hs ho ih =>
      obtain ⟨k, v⟩ := kv
      cases v <;> simp_all [unwrapEntries, tokenFreeEntries]

/-! Entry-list (JS object) update and lookup lemmas, for the spread in
`createComponent`. -/

theorem getKey_setKey_same (es : List (String × JSVal)) (key : String) (v : JSVal) :
    getKey (setKey es key v) key = some v := by
  induction es with
  | nil => simp [setKey, getKey]
  | cons kv rest ih =>
      obtain ⟨k, w⟩ := kv
      by_cases h : k = key
      · simp [setKey, getKey, h]
      · simp [setKey, getKey, h, ih]

theorem getKey_setKey_other (es : List (String × JSVal)) (key : String) (v : JSVal)
    (k' : String) (h : k' ≠ key) :
    getKey (setKey es key v) k' = getKey es k' := by
  induction es with
  | nil => simp [setKey, getKey, Ne.symm h]
  | cons kv rest ih =>
      obtain ⟨k, w⟩ := kv
      by_cases hk : k = key
      · subst hk
        simp [setKey, getKey, Ne.symm h]
      · simp only [setKey, hk, if_false]
        by_cases hk' : k = k'
        · simp [getKey, hk']
        · simp [getKey, hk', ih]

theorem getKey_spreadOnto_not_mem (opts : List (String × JSVal)) :
    ∀ base key, key ∉ opts.map Prod.fst →
      getKey (spreadOnto base opts) key = getKey base key := by
  induction opts with
  | nil => intro base key _; simp [spreadOnto]
  | cons kv rest ih =>
      intro base key h
      obtain ⟨k, v⟩ := kv
      simp only [List.map_cons, List.mem_cons, not_or] at h
      show getKey (spreadOnto (setKey base k v) rest) key = _
      rw [ih (setKey base k v) key h.2, getKey_setKey_other base k v key h.1]

theorem getKey_spreadOnto_mem (opts : List (String × JSVal)) :
    ∀ base key v, (opts.map Prod.fst).Nodup → (key, v) ∈ opts →
      getKey (spreadOnto base opts) key = some v := by
  induction opts with
  | nil => intro base key v _ hm; simp at hm
  | cons kv rest ih =>
      intro base key v hnd hm
      obtain ⟨k, w⟩ := kv
      simp only [List.map_cons, List.nodup_cons] at hnd
      rcases List.mem_cons.mp hm with heq | hmem
      · rw [Prod.mk.injEq] at heq
        obtain ⟨rfl, rfl⟩ := heq
        show getKey (spreadOnto (setKey base key v) rest) key = some v
        rw [getKey_spreadOnto_not_mem rest (setKey base key v) key hnd.1,
          getKey_setKey_same]
      · exact ih (setKey base k w) key v hnd.2 hmem

theorem countKey_setKey_other (es : List (String × JSVal)) (key : String) (v : JSVal)
    (k' : String) (h : k' ≠ key) :
    countKey (setKey es key v) k' = countKey es k' := by
  induction es with
  | nil =>
      simp [setKey, countKey, List.countP_cons, Ne.symm h]
  | cons kv rest ih =>
      obtain ⟨k, w⟩ := kv
      by_cases hk : k = key
      · subst hk
        simp [setKey, countKey, List.countP_cons]
      · simp only [setKey, hk, if_false, countKey, List.countP_cons]
        simp only [countKey] at ih
        rw [ih]

theorem countKey_spreadOnto (opts : List (String × JSVal)) :
    ∀ base key, key ∉ opts.map Prod.fst →
      countKey (spreadOnto base opts) key = countKey base key := by
  induction opts with
  | nil => intro base key _; simp [spreadOnto]
  | cons kv rest ih =>
      intro base key h
      obtain ⟨k, v⟩ := kv
      simp only [List.map_cons, List.mem_cons, not_or] at h
      show countKey (spreadOnto (setKey base k v) rest) key = _
      rw [ih (setKey base k v) key h.2, countKey_setKey_other base k v key h.1]

/-! Remote bridge lemmas: document and call-log evolution. -/

theorem getElementById_none_iff (doc : List String) (i : String) :
    getElementById doc i = none ↔ doc.count i = 0 := by
  rw [getElementById, List.findIdx?_eq_none_iff, List.count_eq_zero]
  constructor
  · intro h hi
    have := h i hi
    simp at this
  · intro h x hx
    rcases eq_or_ne x i with rfl | hne
    · exact absurd hx h
    · simp [hne]

theorem innerMountRemote_doc (resolve : JSVal → JSVal) (st : RemoteState)
    (component : JSVal) (hooksConfig : Option JSVal) :
    (innerMountRemote resolve st component hooksConfig).1.doc
      = if getElementById st.doc "root" = none then st.doc ++ ["root"] else st.doc := rfl

theorem count_root_after_mount (resolve : JSVal → JSVal) (st : RemoteState)
    (component : JSVal) (hooksConfig : Option JSVal) :
    (innerMountRemote resolve st component hooksConfig).1.doc.count "root"
      = if st.doc.count "root" = 0 then st.doc.count "root" + 1 else st.doc.count "root" := by
  rw [innerMountRemote_doc]
  by_cases h : getElementById st.doc "root" = none
  · have hc := (getElementById_none_iff st.doc "root").mp h
    simp [h, hc, List.count_append]
  · have hc : st.doc.count "root" ≠ 0 :=
      fun hz => h ((getElementById_none_iff st.doc "root").mpr hz)
    simp [h, hc]

theorem innerUpdate_state (resolve : JSVal → JSVal) (registry : List Fn)
    (st : RemoteState) (componentRef : JSVal) (options : List (String × JSVal)) :
    (innerUpdate resolve registry st componentRef options).2.doc = st.doc
    ∧ (innerUpdate resolve registry st componentRef options).2.calls
      = st.calls ++ [RemoteCall.updateCall (getElementById st.doc "root")
          (resolve (unwrapFunctions
            (wrapFunctions (createComponent componentRef options) registry).1))] :=
  ⟨rfl, rfl⟩

theorem handleUpdate_state (resolve : JSVal → JSVal) (registry : List Fn)
    (st : RemoteState) (componentRef arg : JSVal) :
    (handleUpdate resolve registry st componentRef arg).2.doc = st.doc
    ∧ ∃ comp, (handleUpdate resolve registry st componentRef arg).2.calls
        = st.calls ++ [RemoteCall.updateCall (getElementById st.doc "root") comp] := by
  by_cases h : isJsxComponent arg
  · simp only [handleUpdate, h, if_true]
    exact ⟨(innerUpdate_state resolve registry st arg []).1,
      _, (innerUpdate_state resolve registry st arg []).2⟩
  · simp only [handleUpdate, h, if_false]
    exact ⟨(innerUpdate_state resolve registry st componentRef (entriesOf arg)).1,
      _, (innerUpdate_state resolve registry st componentRef (entriesOf arg)).2⟩

theorem runUpdates_state (resolve : JSVal → JSVal) (componentRef : JSVal) :
    ∀ (args : List JSVal) (s : List Fn × RemoteState),
      (runUpdates resolve componentRef args s).2.doc = s.2.doc
      ∧ ∃ tail, (runUpdates resolve componentRef args s).2.calls = s.2.calls ++ tail
          ∧ ∀ c ∈ tail, ∃ comp,
              c = RemoteCall.updateCall (getElementById s.2.doc "root") comp := by
  intro args
  induction args with
  | nil =>
      intro s
      exact ⟨rfl, [], by simp [runUpdates], by simp⟩
  | cons a rest ih =>
      intro s
      obtain ⟨hdoc1, comp1, hcalls1⟩ :=
        handleUpdate_state resolve s.1 s.2 componentRef a
      obtain ⟨hdoc2, tail, hcalls2, htail⟩ :=
        ih (handleUpdate resolve s.1 s.2 componentRef a)
      refine ⟨?_, RemoteCall.updateCall (getElementById s.2.doc "root") comp1 :: tail, ?_, ?_⟩
      · show (runUpdates resolve componentRef rest _).2.doc = s.2.doc
        rw [hdoc2, hdoc1]
      · show (runUpdates resolve componentRef rest _).2.calls = _
        rw [hcalls2, hcalls1]
        simp
      · intro c hc
        rcases List.mem_cons.mp hc with rfl | hmem
        · exact ⟨comp1, rfl⟩
        · obtain ⟨comp, hcomp⟩ := htail c hmem
          exact ⟨comp, by rw [hcomp, hdoc1]⟩

/-! Descriptor builder helpers. -/

theorem createComponent_eq_of_jsx (c : JSVal) (opts : List (String × JSVal))
    (h : isJsxRef c = true) : createComponent c opts = c := by
  simp [createComponent, h]

theorem isJsxRef_of_isJsxComponent (v : JSVal) (h : isJsxComponent v = true) :
    isJsxRef v = true := by
  cases v <;> simp_all [isJsxComponent, isJsxRef, pwTypeOf]

theorem pwTypeOf_of_jsxRef (c : JSVal) (h : isJsxRef c = true) :
    pwTypeOf c = some (JSVal.str "jsx".toList) := by
  unfold isJsxRef at h
  match hm : pwTypeOf c with
  | some (JSVal.str s) =>
      rw [hm] at h
      have hs : s = "jsx".toList := by simpa using h
      rw [hs]
  | none => rw [hm] at h; simp at h
  | some JSVal.undefined => rw [hm] at h; simp at h
  | some JSVal.null => rw [hm] at h; simp at h
  | some (JSVal.bool b) => rw [hm] at h; simp at h
  | some (JSVal.num n) => rw [hm] at h; simp at h
  | some (JSVal.func f) => rw [hm] at h; simp at h
  | some (JSVal.obj es) => rw [hm] at h; simp at h

/-! Claim theorems. -/

/-- C1: for every composite input, `wrapFunctions` replaces exactly the callable
values — the `i`-th one (in walk order) becomes the token string for the next
registry ordinal `cbs.length + i`, pairwise distinct, and the callable is
appended to the registry at that index — while every token-describable
structure is preserved: the key skeleton is unchanged at every depth and any
sub-list containing no callables is returned verbatim. -/
theorem wrapFunctions_marshals (es : List (String × JSVal)) (cbs : List Fn) :
    wrapFunctions (JSVal.obj es) cbs
      = (JSVal.obj (replaceFuncsEntries es cbs.length), cbs ++ collectFuncsEntries es)
    ∧ (collectFuncsEntries es).length = countFuncsEntries es
    ∧ ((List.range (countFuncsEntries es)).map (fun i => tokenOf (cbs.length + i))).Nodup
    ∧ keyShapeEntries (replaceFuncsEntries es cbs.length) = keyShapeEntries es
    ∧ (∀ es2 : List (String × JSVal), ∀ n, countFuncsEntries es2 = 0 →
        replaceFuncsEntries es2 n = es2)
    ∧ (∀ i, i < countFuncsEntries es →
        (cbs ++ collectFuncsEntries es).get? (cbs.length + i)
          = (collectFuncsEntries es).get? i) := by
  refine ⟨?_, collectFuncsEntries_length es, ?_,
    keyShape_replaceFuncsEntries es cbs.length, replaceFuncsEntries_of_no_funcs, ?_⟩
  · simp [wrapFunctions, wrapEntries_spec]
  · refine List.Nodup.map ?_ (List.nodup_range _)
    intro a b hab
    exact Nat.add_left_cancel (tokenOf_injective hab)
  · intro i _
    rw [List.get?_append_right (by omega)]
    congr 1
    omega

/-- C1 witness: a two-entry object with one callback marshalled from an empty
registry, plus concrete instances of the hypotheses of the quantified
conjuncts. -/
theorem wrapFunctions_marshals_witness :
    wrapFunctions (JSVal.obj [("onClick", JSVal.func (Fn.callback 7)), ("count", JSVal.num 0)]) []
      = (JSVal.obj [("onClick", JSVal.str (tokenOf 0)), ("count", JSVal.num 0)], [Fn.callback 7])
    ∧ countFuncsEntries [("count", JSVal.num 0)] = 0
    ∧ replaceFuncsEntries [("count", JSVal.num 0)] 3 = [("count", JSVal.num 0)]
    ∧ (0 : Nat) < countFuncsEntries [("onClick", JSVal.func (Fn.callback 7))]
    ∧ (([] : List Fn) ++ collectFuncsEntries [("onClick", JSVal.func (Fn.callback 7))]).get?
        (List.length ([] : List Fn) + 0)
        = (collectFuncsEntries [("onClick", JSVal.func (Fn.callback 7))]).get? 0 := by
  have h1 := wrapFunctions_marshals
    [("onClick", JSVal.func (Fn.callback 7)), ("count", JSVal.num 0)] []
  have h2 := wrapFunctions_marshals [("onClick", JSVal.func (Fn.callback 7))] []
  refine ⟨?_, by simp [countFuncsEntries],
    h1.2.2.2.2.1 [("count", JSVal.num 0)] 3 (by simp [countFuncsEntries]),
    by simp [countFuncsEntries],
    h2.2.2.2.2.2 0 (by simp [countFuncsEntries])⟩
  rw [h1.1]
  simp [replaceFuncsEntries, collectFuncsEntries, countFuncsEntries]

/-- C2: dispatching a registered ordinal invokes exactly the callback stored at
that ordinal, exactly once, with the argument list passed through unchanged. -/
theorem ctDispatch_valid (registry : List Fn) (i : Nat) (args : List JSVal)
    (h : i < registry.length) :
    ctDispatch registry (some i) args = Except.ok [⟨registry.get ⟨i, h⟩, args⟩] := by
  have hg := List.getElem?_eq_getElem h
  simp [ctDispatch, Option.bind, hg, List.get_eq_getElem]

/-- C2 witness: ordinal 1 of a two-entry registry. -/
theorem ctDispatch_valid_witness :
    (1 : Nat) < ([Fn.callback 4, Fn.callback 9] : List Fn).length
    ∧ ctDispatch [Fn.callback 4, Fn.callback 9] (some 1) [JSVal.num 5, JSVal.null]
        = Except.ok [⟨Fn.callback 9, [JSVal.num 5, JSVal.null]⟩] := by
  have h : (1 : Nat) < ([Fn.callback 4, Fn.callback 9] : List Fn).length := by simp
  refine ⟨h, ?_⟩
  rw [ctDispatch_valid [Fn.callback 4, Fn.callback 9] 1 [JSVal.num 5, JSVal.null] h]
  rfl

/-- C4: dispatching an ordinal with no registered callback (out of range, or
not a valid index at all) reads `undefined` from the array and throws — it is
an error, never a silent no-op. -/
theorem ctDispatch_unregistered (registry : List Fn) (ordinal : Option Nat)
    (args : List JSVal)
    (h : ∀ i, ordinal = some i → registry.length ≤ i) :
    ctDispatch registry ordinal args = Except.error typeErrorNotFunction := by
  cases ordinal with
  | none => rfl
  | some i =>
      have hi := h i rfl
      have hn : registry.get? i = none := List.get?_eq_none.mpr hi
      rw [List.get?_eq_getElem?] at hn
      simp [ctDispatch, Option.bind, hn]

/-- C4 witness: ordinal 5 against a single-entry registry. -/
theorem ctDispatch_unregistered_witness :
    (∀ i, (some 5 : Option Nat) = some i → ([Fn.callback 0] : List Fn).length ≤ i)
    ∧ ctDispatch [Fn.callback 0] (some 5) [] = Except.error typeErrorNotFunction := by
  have h : ∀ i, (some 5 : Option Nat) = some i → ([Fn.callback 0] : List Fn).length ≤ i := by
    intro i hi
    cases hi
    simp
  exact ⟨h, ctDispatch_unregistered [Fn.callback 0] (some 5) [] h⟩

/-- C3 counterexample: the string `'__pw_func_x'` does not match the token
format (its suffix is not a decimal ordinal), yet `unwrapFunctions` replaces
it with a dispatcher closure (whose coerced ordinal is `NaN`, modelled `none`)
instead of leaving it unchanged as the claim requires. -/
theorem unwrapFunctions_nonformat_replaced :
    unwrapFunctions (JSVal.obj [("k", JSVal.str "__pw_func_x".toList)])
      = JSVal.obj [("k", JSVal.func (Fn.dispatcher none))]
    ∧ unwrapFunctions (JSVal.obj [("k", JSVal.str "__pw_func_x".toList)])
      ≠ JSVal.obj [("k", JSVal.str "__pw_func_x".toList)] := by
  have hpre : pwFuncMark.isPrefixOf ("__pw_func_x".toList) = true := by decide
  have hidx : jsToIndex (("__pw_func_x".toList).drop pwFuncMark.length) = none := by decide
  have he : unwrapFunctions (JSVal.obj [("k", JSVal.str "__pw_func_x".toList)])
      = JSVal.obj [("k", JSVal.func (Fn.dispatcher none))] := by
    simp only [unwrapFunctions, unwrapEntries, hpre, hidx, if_true]
  refine ⟨he, ?_⟩
  rw [he]
  simp

/-- C3 (amended): the remote `unwrapFunctions` replaces exactly the string
values that start with the literal `'__pw_func_'` — whether or not the
remainder is a decimal ordinal — with the dispatcher closure over the
JS-coerced remainder; on a genuine token the coerced ordinal is the token's
ordinal; objects are walked recursively; values containing no such marked
string are left unchanged; invoking the closure emits one `(ordinal, args)`
message and returns no result. -/
theorem unwrapFunctions_replaces_marked (k : String) (s : List Char)
    (rest es : List (String × JSVal)) (n : Nat) (ord : Option Nat)
    (args : List JSVal) :
    unwrapFunctions (JSVal.obj es) = JSVal.obj (unwrapEntries es)
    ∧ (pwFuncMark.isPrefixOf s = true →
        unwrapEntries ((k, JSVal.str s) :: rest)
          = (k, JSVal.func (Fn.dispatcher (jsToIndex (s.drop pwFuncMark.length))))
              :: unwrapEntries rest)
    ∧ (pwFuncMark.isPrefixOf s = false →
        unwrapEntries ((k, JSVal.str s) :: rest) = (k, JSVal.str s) :: unwrapEntries rest)
    ∧ pwFuncMark.isPrefixOf (tokenOf n) = true
    ∧ jsToIndex ((tokenOf n).drop pwFuncMark.length) = some n
    ∧ unwrapEntries ((k, JSVal.obj es) :: rest)
        = (k, JSVal.obj (unwrapEntries es)) :: unwrapEntries rest
    ∧ (tokenFreeEntries es = true → unwrapEntries es = es)
    ∧ invokeDispatcher ord args = ([⟨ord, args⟩], JSVal.undefined) := by
  refine ⟨rfl, ?_, ?_, tokenOf_isPrefix n, jsToIndex_tokenOf n, ?_, unwrapEntries_of_tokenFree es, rfl⟩
  · intro h
    simp [unwrapEntries, h]
  · intro h
    simp [unwrapEntries, h]
  · simp [unwrapEntries]

/-- C3 witness: the genuine token `'__pw_func_3'` unwrapped to a dispatcher
over ordinal 3, and a token-free entry list left unchanged. -/
theorem unwrapFunctions_replaces_marked_witness :
    pwFuncMark.isPrefixOf ("__pw_func_3".toList) = true
    ∧ unwrapEntries [("cb", JSVal.str "__pw_func_3".toList)]
        = [("cb", JSVal.func (Fn.dispatcher
            (jsToIndex (("__pw_func_3".toList).drop pwFuncMark.length))))]
    ∧ tokenFreeEntries [("count", JSVal.num 0)] = true
    ∧ unwrapEntries [("count", JSVal.num 0)] = [("count", JSVal.num 0)] := by
  have h := unwrapFunctions_replaces_marked "cb" ("__pw_func_3".toList)
    [] [("count", JSVal.num 0)] 0 none []
  have hpre : pwFuncMark.isPrefixOf ("__pw_func_3".toList) = true := by decide
  have hfree : tokenFreeEntries [("count", JSVal.num 0)] = true := by
    simp [tokenFreeEntries]
  refine ⟨hpre, ?_, hfree, h.2.2.2.2.2.2.1 hfree⟩
  rw [h.2.1 hpre]
  simp [unwrapEntries]

/-- C6: the registry is append-only inside a session — each marshalling call
extends it with a fresh sub-range after all previously allocated indices and
never rewrites an earlier index — and the mount fixture teardown resets it, so
a new session starts from the empty registry. -/
theorem registry_append_only (r : List Fn) (ref : JSVal)
    (opts : List (String × JSVal)) (evs : List FixtureEvent) (r2 : List Fn) :
    marshalCall r ref opts = r ++ collectFuncsVal (createComponent ref opts)
    ∧ (∀ i, i < r.length → (marshalCall r ref opts).get? i = r.get? i)
    ∧ runFixture (FixtureEvent.teardown :: evs) r2 = runFixture evs initialCallbacks := by
  refine ⟨wrapFunctions_registry _ r, ?_, rfl⟩
  intro i hi
  show (wrapFunctions (createComponent ref opts) r).2.get? i = r.get? i
  rw [wrapFunctions_registry]
  exact List.get?_append hi

/-- C6 witness: one marshalling call over a one-entry registry preserves
index 0. -/
theorem registry_append_only_witness :
    (0 : Nat) < ([Fn.callback 1] : List Fn).length
    ∧ (marshalCall [Fn.callback 1] (JSVal.obj [("p", JSVal.func (Fn.callback 2))]) []).get? 0
        = ([Fn.callback 1] : List Fn).get? 0 := by
  have h := registry_append_only [Fn.callback 1]
    (JSVal.obj [("p", JSVal.func (Fn.callback 2))]) [] [] []
  exact ⟨by simp, h.2.1 0 (by simp)⟩

/-- C7: a declarative (`'jsx'`-tagged) input is returned by `createComponent`
with no change at all, whatever the options are. -/
theorem createComponent_jsx_unchanged (c : JSVal) (opts : List (String × JSVal))
    (h : isJsxRef c = true) : createComponent c opts = c :=
  createComponent_eq_of_jsx c opts h

/-- C7 witness: a concrete jsx descriptor with a non-trivial options bag. -/
theorem createComponent_jsx_unchanged_witness :
    isJsxRef (JSVal.obj [("__pw_type", JSVal.str "jsx".toList), ("type", JSVal.str "div".toList)]) = true
    ∧ createComponent
        (JSVal.obj [("__pw_type", JSVal.str "jsx".toList), ("type", JSVal.str "div".toList)])
        [("props", JSVal.num 1)]
      = JSVal.obj [("__pw_type", JSVal.str "jsx".toList), ("type", JSVal.str "div".toList)] := by
  have h : isJsxRef (JSVal.obj
      [("__pw_type", JSVal.str "jsx".toList), ("type", JSVal.str "div".toList)]) = true := by
    simp [isJsxRef, pwTypeOf, getKey]
  exact ⟨h, createComponent_jsx_unchanged _ [("props", JSVal.num 1)] h⟩

/-- C5: a mount followed by any number of handle updates creates at most one
`root` element: the mount's remote half appends one only when none exists, and
every update leaves the document unchanged, invoking `playwrightUpdate`
against the element already located under id `root`. -/
theorem root_node_single (resolve : JSVal → JSVal) (registry : List Fn)
    (doc : List String) (calls0 : List RemoteCall) (ref : JSVal)
    (opts : List (String × JSVal)) (args : List JSVal) :
    (runUpdates resolve ref args
        ((innerMount resolve registry ⟨doc, calls0⟩ ref opts).1,
         (innerMount resolve registry ⟨doc, calls0⟩ ref opts).2.1)).2.doc
      = (innerMount resolve registry ⟨doc, calls0⟩ ref opts).2.1.doc
    ∧ (innerMount resolve registry ⟨doc, calls0⟩ ref opts).2.1.doc.count "root"
      = (if doc.count "root" = 0 then doc.count "root" + 1 else doc.count "root")
    ∧ getElementById (innerMount resolve registry ⟨doc, calls0⟩ ref opts).2.1.doc "root" ≠ none
    ∧ ∃ tail,
        (runUpdates resolve ref args
            ((innerMount resolve registry ⟨doc, calls0⟩ ref opts).1,
             (innerMount resolve registry ⟨doc, calls0⟩ ref opts).2.1)).2.calls
          = (innerMount resolve registry ⟨doc, calls0⟩ ref opts).2.1.calls ++ tail
        ∧ ∀ c ∈ tail, ∃ comp, c = RemoteCall.updateCall
            (getElementById (innerMount resolve registry ⟨doc, calls0⟩ ref opts).2.1.doc "root")
            comp := by
  have hcount := count_root_after_mount resolve ⟨doc, calls0⟩
    (wrapFunctions (createComponent ref opts) registry).1 (getKey opts "hooksConfig")
  have hrun := runUpdates_state resolve ref args
    ((innerMount resolve registry ⟨doc, calls0⟩ ref opts).1,
     (innerMount resolve registry ⟨doc, calls0⟩ ref opts).2.1)
  refine ⟨hrun.1, hcount, ?_, hrun.2⟩
  intro hnone
  have hz : List.count "root"
      (innerMountRemote resolve ⟨doc, calls0⟩
        (wrapFunctions (createComponent ref opts) registry).1
        (getKey opts "hooksConfig")).1.doc = 0 :=
    (getElementById_none_iff _ _).mp hnone
  rw [hcount] at hz
  by_cases hd : doc.count "root" = 0 <;> simp [hd] at hz

/-- C8: building a descriptor from a non-declarative (type-reference) input
with empty options yields exactly the two-field object-component descriptor —
no error, no `props` binding at all — and any well-formed options bag is
shallow-merged verbatim: each of its bindings is readable back unchanged from
the built descriptor. -/
theorem createComponent_typeRef_defaults (ref : JSVal) (h : isJsxRef ref = false) :
    createComponent ref []
      = JSVal.obj [("__pw_type", JSVal.str "object-component".toList), ("type", ref)]
    ∧ getKey (entriesOf (createComponent ref [])) "props" = none
    ∧ ∀ opts k v, (opts.map Prod.fst).Nodup → (k, v) ∈ opts →
        getKey (entriesOf (createComponent ref opts)) k = some v := by
  refine ⟨?_, ?_, ?_⟩
  · simp [createComponent, h, spreadOnto]
  · simp [createComponent, h, spreadOnto, entriesOf, getKey]
  · intro opts k v hnd hm
    simp only [createComponent, h, if_false, Bool.false_eq_true, entriesOf]
    exact getKey_spreadOnto_mem opts _ k v hnd hm

/-- C8 witness: an import-reference input, once with empty options and once
with a `slots`-bearing options bag. -/
theorem createComponent_typeRef_defaults_witness :
    isJsxRef (JSVal.obj [("__pw_type", JSVal.str "importRef".toList)]) = false
    ∧ getKey (entriesOf (createComponent
        (JSVal.obj [("__pw_type", JSVal.str "importRef".toList)]) [])) "props" = none
    ∧ getKey (entriesOf (createComponent
        (JSVal.obj [("__pw_type", JSVal.str "importRef".toList)])
        [("slots", JSVal.obj [("default", JSVal.str "x".toList)])])) "slots"
      = some (JSVal.obj [("default", JSVal.str "x".toList)]) := by
  have h : isJsxRef (JSVal.obj [("__pw_type", JSVal.str "importRef".toList)]) = false := by
    simp [isJsxRef, pwTypeOf, getKey]
  have hc := createComponent_typeRef_defaults
    (JSVal.obj [("__pw_type", JSVal.str "importRef".toList)]) h
  refine ⟨h, hc.2.1, ?_⟩
  exact hc.2.2 [("slots", JSVal.obj [("default", JSVal.str "x".toList)])]
    "slots" (JSVal.obj [("default", JSVal.str "x".toList)]) (by simp) (by simp)

/-- C9: the handle's `update` takes the full-descriptor branch exactly when
the argument is `'jsx'`-tagged — mounting the new descriptor itself, which
`createComponent` passes through unchanged — and the options-patch branch
otherwise, rebuilding from the mount-time reference; both branches invoke the
same remote entry point, `playwrightUpdate` against the existing `root`
element. -/
theorem handleUpdate_branches (resolve : JSVal → JSVal) (registry : List Fn)
    (st : RemoteState) (componentRef arg : JSVal) :
    handleUpdate resolve registry st componentRef arg
      = (if isJsxComponent arg then innerUpdate resolve registry st arg []
         else innerUpdate resolve registry st componentRef (entriesOf arg))
    ∧ (handleUpdate resolve registry st componentRef arg).2.calls
      = st.calls ++ [RemoteCall.updateCall (getElementById st.doc "root")
          (resolve (unwrapFunctions (wrapFunctions (createComponent
            (if isJsxComponent arg then arg else componentRef)
            (if isJsxComponent arg then [] else entriesOf arg)) registry).1))]
    ∧ (isJsxComponent arg = true → createComponent arg [] = arg) := by
  refine ⟨rfl, ?_, ?_⟩
  · by_cases h : isJsxComponent arg <;>
      simp [handleUpdate, h, innerUpdate, innerUpdateRemote]
  · intro h
    exact createComponent_eq_of_jsx arg [] (isJsxRef_of_isJsxComponent arg h)

/-- C9 witness: a concrete jsx argument takes the full-descriptor branch and
is passed through `createComponent` unchanged. -/
theorem handleUpdate_branches_witness :
    isJsxComponent (JSVal.obj [("__pw_type", JSVal.str "jsx".toList)]) = true
    ∧ createComponent (JSVal.obj [("__pw_type", JSVal.str "jsx".toList)]) []
        = JSVal.obj [("__pw_type", JSVal.str "jsx".toList)] := by
  have hj : isJsxComponent (JSVal.obj [("__pw_type", JSVal.str "jsx".toList)]) = true := by
    simp [isJsxComponent, getKey]
  have h := handleUpdate_branches (fun v => v) [] ⟨[], []⟩ JSVal.null
    (JSVal.obj [("__pw_type", JSVal.str "jsx".toList)])
  exact ⟨hj, h.2.2 hj⟩

/-- C10: every descriptor built by `createComponent` carries exactly one
variant tag — `'jsx'` or `'object-component'` — provided the input is a
well-formed descriptor input (a jsx input carries exactly one tag binding, as
the jsx factory produces) and the options bag is a well-formed
`ObjectComponentOptions` value (its fields are presentation options, so none
of them is named `__pw_type`). -/
theorem createComponent_single_tag (c : JSVal) (opts : List (String × JSVal))
    (hc : isJsxRef c = true → countKey (entriesOf c) "__pw_type" = 1)
    (ho : "__pw_type" ∉ opts.map Prod.fst) :
    countKey (entriesOf (createComponent c opts)) "__pw_type" = 1
    ∧ (pwTypeOf (createComponent c opts) = some (JSVal.str "jsx".toList)
       ∨ pwTypeOf (createComponent c opts) = some (JSVal.str "object-component".toList)) := by
  by_cases h : isJsxRef c
  · rw [createComponent_eq_of_jsx c opts h]
    exact ⟨hc h, Or.inl (pwTypeOf_of_jsxRef c h)⟩
  · have hfalse : isJsxRef c = false := by simpa using h
    constructor
    · simp only [createComponent, hfalse, Bool.false_eq_true, if_false, entriesOf]
      rw [countKey_spreadOnto opts _ "__pw_type" ho]
      simp [countKey, List.countP_cons]
    · right
      simp only [createComponent, hfalse, Bool.false_eq_true, if_false, pwTypeOf]
      rw [getKey_spreadOnto_not_mem opts _ "__pw_type" ho]
      simp [getKey]

/-- C10 witness: an import-reference input with a `props` option. -/
theorem createComponent_single_tag_witness :
    ("__pw_type" ∉ ([("props", JSVal.num 1)].map Prod.fst))
    ∧ countKey (entriesOf (createComponent
        (JSVal.obj [("__pw_type", JSVal.str "importRef".toList)])
        [("props", JSVal.num 1)])) "__pw_type" = 1 := by
  have h1 : isJsxRef (JSVal.obj [("__pw_type", JSVal.str "importRef".toList)]) = true →
      countKey (entriesOf (JSVal.obj [("__pw_type", JSVal.str "importRef".toList)])) "__pw_type" = 1 := by
    intro hh
    simp [isJsxRef, pwTypeOf, getKey] at hh
  have h2 : "__pw_type" ∉ ([("props", JSVal.num 1)].map Prod.fst) := by simp
  exact ⟨h2, (createComponent_single_tag _ _ h1 h2).1⟩
